import Mathlib

/-!
Verification of the task-entry staleness/reification core of the rsha
repository (src/entry.rs) against its natural-language specification.

The Rust code is shallowly embedded: pure helpers become Lean functions,
the filesystem and the spawned shell process become explicit oracles
(`FS`, `World`), and fallible operations return `Except Error`.  The
SHA-256 compression itself is kept abstract: `calc_sha` is parameterised
by a hex-rendering digest function `H` applied to the exact byte stream
the Rust code feeds into the hasher (`shaStream`), which is what all the
fingerprint claims are really about.
-/

namespace Rsha

/-- Lexicographic comparison of character lists by code point, used to
model Rust's `Vec::sort` on the canonicalized paths.  Executable and
kernel-reducible (unlike Mathlib's order on `String` under `decide`). -/
def leChars : List Char → List Char → Bool
  | [], _ => true
  | _ :: _, [] => false
  | a :: as, b :: bs =>
    if a.toNat < b.toNat then true
    else if b.toNat < a.toNat then false
    else leChars as bs

/-- Lexicographic order on strings by code point. -/
def leStr (a b : String) : Prop := leChars a.data b.data = true

instance : DecidableRel leStr := fun a b =>
  inferInstanceAs (Decidable (leChars a.data b.data = true))

/-- Modelled from the spec: the crate-level error type (`crate::error`,
whose source file is not under src/).  It carries the infrastructural
failures the spec names: I/O failure opening or reading a file, process
spawn or wait failure, a wait result with no exit code (`Unknown`), and
the two parse errors `MissingName` and `MissingCmd`. -/
inductive Error where
  | MissingName
  | MissingCmd
  | Unknown
  | IoError
deriving DecidableEq

/-- Success outcomes of reifying an entry (enum `ReifySuccess`). -/
inductive ReifySuccess where
  | ExecSuccess (sha : String)
  | Noop
deriving DecidableEq

/-- Failure outcomes of reifying an entry (enum `ReifyFail`). -/
inductive ReifyFail where
  | ExecFail (code : Int)
  | MissingRequiredFiles
  | DryFail
deriving DecidableEq

/-- Inner result level: `Result<ReifySuccess, ReifyFail>`. -/
def ReifyResult := Except ReifyFail ReifySuccess

deriving instance DecidableEq for Except

instance : DecidableEq ReifyResult :=
  inferInstanceAs (DecidableEq (Except ReifyFail ReifySuccess))

/-- The task entry record (struct `Entry`), fields in source order. -/
structure Entry where
  name : String
  cmd : String
  required_files : List String
  files : List String
  sha : Option String
deriving DecidableEq

/-- Filesystem oracle.  `canonicalize` models the helper
`fn canonicalize(p) = Path::new(p).canonicalize().ok()`: the canonical
absolute path when resolution succeeds, `none` otherwise.  `read` models
opening a canonical path and reading its full byte content (the Rust
code reads in 1024-byte chunks, whose concatenation is the full
content); `none` models an open/read I/O failure. -/
structure FS where
  canonicalize : String → Option String
  read : String → Option (List Nat)

/-- Byte view of the command text fed to the hasher by
`hasher.update(&self.cmd)`. -/
def strBytes (s : String) : List Nat := s.data.map Char.toNat

/-- The canonicalized, sorted file list built at the top of
`Entry::calc_sha`: `files` chained with `required_files`, paths that do
not canonicalize filtered out, then sorted. -/
def sortedFiles (fs : FS) (e : Entry) : List String :=
  List.insertionSort leStr ((e.files ++ e.required_files).filterMap fs.canonicalize)

/-- Sequential read of a list of files, stopping at the first open/read
failure, mirroring the hashing loop of `Entry::calc_sha`. -/
def readAll (fs : FS) : List String → Option (List (List Nat))
  | [] => some []
  | f :: rest =>
    match fs.read f with
    | none => none
    | some c =>
      match readAll fs rest with
      | none => none
      | some cs => some (c :: cs)

/-- The exact byte stream `Entry::calc_sha` feeds into the SHA-256
hasher: the contents of the sorted resolvable files in order, followed
by the command text.  The first file whose open/read fails aborts the
computation with an I/O error, as `?` does in the Rust loop. -/
def shaStream (fs : FS) (e : Entry) : Except Error (List Nat) :=
  match readAll fs (sortedFiles fs e) with
  | none => Except.error Error.IoError
  | some contents => Except.ok (contents.flatten ++ strBytes e.cmd)

/-- Fingerprint computation (`Entry::calc_sha`).  `H` abstracts the
SHA-256 finalize-and-hex-encode step; the fingerprint is `H` of the
exact stream of bytes the Rust code hashes. -/
def calc_sha (H : List Nat → String) (fs : FS) (e : Entry) : Except Error String :=
  (shaStream fs e).map H

/-- Process oracle for one reification call.  `fs0` is the filesystem
as seen before the command runs (used by the precondition check and the
staleness decision), `fs1` the filesystem after the command ran (used
by the post-execution fingerprint).  `proc` is the observable outcome
of spawning `/bin/bash -c` on the command: `.error` a spawn/wait I/O
failure, `.ok none` termination without an exit code (killed by a
signal), `.ok (some code)` a normal exit code. -/
structure World where
  fs0 : FS
  fs1 : FS
  proc : Except Error (Option Int)

/-- Subprocess execution (`Entry::exec`): surfaces the exit code, and
turns an exit-code-less termination into the infrastructural error
`Error::Unknown`.  The entry argument only shapes the spawned process
(command text and environment), which the oracle `proc` summarises. -/
def exec (w : World) (_e : Entry) : Except Error Int :=
  match w.proc with
  | Except.error err => Except.error err
  | Except.ok none => Except.error Error.Unknown
  | Except.ok (some code) => Except.ok code

/-- Staleness decision (`Entry::check_then`).  The second component of
the result records whether the `exec` continuation was invoked, i.e.
whether a process spawn was attempted. -/
def check_then (H : List Nat → String) (fs : FS) (e : Entry)
    (exec_k : Unit → Except Error ReifyResult × Bool) :
    Except Error ReifyResult × Bool :=
  match e.sha with
  | some old_sha =>
    match calc_sha H fs e with
    | Except.error err => (Except.error err, false)
    | Except.ok new_sha =>
      if new_sha ≠ old_sha then exec_k ()
      else (Except.ok (Except.ok ReifySuccess.Noop), false)
  | none => exec_k ()

/-- The closure `reify` passes to `check_then`: run the command; on exit
code 0 recompute the fingerprint (against the post-execution filesystem)
and report `ExecSuccess`, on a non-zero code report `ExecFail`. -/
def execOutcome (H : List Nat → String) (w : World) (e : Entry) :
    Except Error ReifyResult :=
  match exec w e with
  | Except.error err => Except.error err
  | Except.ok code =>
    if code = 0 then
      match calc_sha H w.fs1 e with
      | Except.error err => Except.error err
      | Except.ok sha => Except.ok (Except.ok (ReifySuccess.ExecSuccess sha))
    else Except.ok (Except.error (ReifyFail.ExecFail code))

/-- Real reification (`Entry::reify`): require every `required_files`
path to canonicalize, then run the staleness decision with the real
execution continuation.  The boolean records whether a spawn was
attempted. -/
def reify (H : List Nat → String) (w : World) (e : Entry) :
    Except Error ReifyResult × Bool :=
  if e.required_files.length =
      (e.required_files.filterMap w.fs0.canonicalize).length then
    check_then H w.fs0 e (fun _ => (execOutcome H w e, true))
  else
    (Except.ok (Except.error ReifyFail.MissingRequiredFiles), false)

/-- Dry run (`Entry::dry_run`): the same staleness decision with a
continuation that merely reports `DryFail` and spawns nothing. -/
def dry_run (H : List Nat → String) (fs : FS) (e : Entry) :
    Except Error ReifyResult × Bool :=
  check_then H fs e (fun _ => (Except.ok (Except.error ReifyFail.DryFail), false))

/-- Structured document node: the StrictYaml variants entry.rs touches
(String, Array, Hash, BadValue). -/
inductive Yaml where
  | string (s : String)
  | array (xs : List Yaml)
  | hash (kv : List (String × Yaml))
  | badValue

/-- Scalar access, StrictYaml::as_str: the string of a string node,
nothing otherwise. -/
def Yaml.as_str : Yaml → Option String
  | Yaml.string s => some s
  | _ => none

/-- Indexing as used by the source: hash lookup by key, yielding
BadValue for a missing key or a non-hash node. -/
def Yaml.idx (y : Yaml) (k : String) : Yaml :=
  match y with
  | Yaml.hash kv => (kv.lookup k).getD Yaml.badValue
  | _ => Yaml.badValue

/-- Scalar-or-list coercion (`fn str_vec`): an array keeps its string
elements in order, a single string becomes a singleton, anything else
becomes empty. -/
def str_vec (y : Yaml) : List String :=
  match y with
  | Yaml.array x => x.filterMap Yaml.as_str
  | Yaml.string x => [x]
  | _ => []

/-- Entry parsing (`Entry::from_yaml`): `name` and `cmd` are required
strings, `sha` an optional string, the two list fields go through
`str_vec`. -/
def from_yaml (y : Yaml) : Except Error Entry :=
  match (y.idx "name").as_str with
  | none => Except.error Error.MissingName
  | some name =>
    match (y.idx "cmd").as_str with
    | none => Except.error Error.MissingCmd
    | some cmd =>
      Except.ok
        { name := name
          cmd := cmd
          sha := (y.idx "sha").as_str
          files := str_vec (y.idx "files")
          required_files := str_vec (y.idx "required_files") }

/-- Finishes one line of Rust's `str::lines`: the accumulator holds the
line's characters in reverse; a single trailing carriage return is
removed. -/
def emitLine (acc : List Char) : String :=
  match acc with
  | '\r' :: t => String.mk t.reverse
  | _ => String.mk acc.reverse

/-- Worker for `rustLines`. -/
def linesCore (acc : List Char) : List Char → List String
  | [] => if acc.isEmpty then [] else [emitLine acc]
  | c :: rest =>
    if c = '\n' then emitLine acc :: linesCore [] rest
    else linesCore (c :: acc) rest

/-- Model of Rust's `str::lines`, used by `Entry::dump` to emit the
command text: split at every newline, drop a final empty segment, strip
one trailing carriage return per line. -/
def rustLines (s : String) : List String := linesCore [] s.data

/-- Serialization (`Entry::dump`), modelled as the list of lines the
Rust code writes with `writeln!`: the `-` list-item marker, the name
when non-empty, the command as a literal block with four-space
indentation, each non-empty path list with its header and `  - ` items,
and the fingerprint (the caller-supplied one, else the stored one) when
one exists. -/
def dump (e : Entry) (new_sha : Option String) : List String :=
  ["-"] ++
  (if e.name ≠ "" then ["  name: " ++ e.name] else []) ++
  (["  cmd: |"] ++ (rustLines e.cmd).map (fun l => "    " ++ l)) ++
  (if e.required_files ≠ [] then
    "  required_files:" :: e.required_files.map (fun f => "  - " ++ f)
   else []) ++
  (if e.files ≠ [] then "  files:" :: e.files.map (fun f => "  - " ++ f)
   else []) ++
  (match new_sha.orElse (fun _ => e.sha) with
   | some sha => ["  sha: " ++ sha]
   | none => [])

/-- Removes an expected leading character sequence, or fails. -/
def stripPre : List Char → List Char → Option (List Char)
  | [], s => some s
  | _ :: _, [] => none
  | c :: p, d :: s => if c = d then stripPre p s else none

/-- String form of `stripPre`. -/
def dropPre (p s : String) : Option String :=
  (stripPre p.data s.data).map String.mk

/-- Reads one optional `<key><value>` line. -/
def parseField (key : String) : List String → Option String × List String
  | [] => (none, [])
  | l :: rest =>
    match dropPre key l with
    | some v => (some v, rest)
    | none => (none, l :: rest)

/-- Reads the run of `  - ` list-item lines. -/
def parseItems : List String → List String × List String
  | [] => ([], [])
  | l :: rest =>
    match dropPre "  - " l with
    | some f =>
      match parseItems rest with
      | (fs, rem) => (f :: fs, rem)
    | none => ([], l :: rest)

/-- Reads the run of four-space-indented literal-block lines. -/
def parseBlock : List String → List String × List String
  | [] => ([], [])
  | l :: rest =>
    match dropPre "    " l with
    | some b =>
      match parseBlock rest with
      | (bs, rem) => (b :: bs, rem)
    | none => ([], l :: rest)

/-- Reads one optional header line followed by its list items. -/
def parseSection (hdr : String) (ls : List String) :
    Option (List String) × List String :=
  match ls with
  | [] => (none, [])
  | l :: rest =>
    if l = hdr then
      match parseItems rest with
      | (its, rem) => (some its, rem)
    else (none, l :: rest)

/-- Modelled from the spec: the outer structured-document parser (the
strict-yaml loader the driver applies before `Entry::from_yaml`; its
code is not under src/), restricted to the fragment shape `dump` emits
(the output record shape of spec section 6).  It reads the fragment
line-by-line in the fixed field order and rebuilds the document node;
the cmd literal block is read back by joining the indented block lines
with newlines, preserving internal line breaks exactly as the spec
demands. -/
def parseDump (ls : List String) : Option Yaml :=
  match ls with
  | [] => none
  | first :: rest =>
    if first = "-" then
      match parseField "  name: " rest with
      | (nm, r1) =>
        match r1 with
        | [] => none
        | l :: r2 =>
          if l = "  cmd: |" then
            match parseBlock r2 with
            | (bs, r3) =>
              match parseSection "  required_files:" r3 with
              | (req, r4) =>
                match parseSection "  files:" r4 with
                | (fls, r5) =>
                  match parseField "  sha: " r5 with
                  | (shv, r6) =>
                    if r6 = [] then
                      some (Yaml.hash (
                        (match nm with
                         | some n => [("name", Yaml.string n)]
                         | none => []) ++
                        [("cmd", Yaml.string (String.intercalate "\n" bs))] ++
                        (match req with
                         | some xs =>
                           [("required_files", Yaml.array (xs.map Yaml.string))]
                         | none => []) ++
                        (match fls with
                         | some xs => [("files", Yaml.array (xs.map Yaml.string))]
                         | none => []) ++
                        (match shv with
                         | some s => [("sha", Yaml.string s)]
                         | none => [])))
                    else none
          else none
    else none

/-- Serialization round trip: dump an entry, reload the fragment with
the document parser, and re-parse the node with `from_yaml`. -/
def roundTrip (e : Entry) (new_sha : Option String) :
    Option (Except Error Entry) :=
  (parseDump (dump e new_sha)).map from_yaml

/-- Newline-freedom of a field value: the line-list model of `dump` is
faithful to the written text only when each interpolated value stays on
its own line. -/
def noNl (s : String) : Prop := '\n' ∉ s.data

instance (s : String) : Decidable (noNl s) :=
  inferInstanceAs (Decidable ('\n' ∉ s.data))

/-- The head of the remaining line list, if any, does not carry the
given leading character sequence (stop condition for the line-run
readers). -/
def headNoPre (p : String) : List String → Prop
  | [] => True
  | l :: _ => dropPre p l = none

/-- The key/value list of the document node denoted by a dumped
fragment: `name` and `cmd` always present, the two path lists only when
non-empty, the fingerprint only when known. -/
def mkKv (nm cm : String) (rq fl : List String) (sho : Option String) :
    List (String × Yaml) :=
  [("name", Yaml.string nm), ("cmd", Yaml.string cm)] ++
  (match rq with
   | [] => []
   | xs => [("required_files", Yaml.array (xs.map Yaml.string))]) ++
  (match fl with
   | [] => []
   | xs => [("files", Yaml.array (xs.map Yaml.string))]) ++
  (match sho with
   | some s => [("sha", Yaml.string s)]
   | none => [])

/-- Digest stand-in for witnesses: a constant rendering. -/
def demoH : List Nat → String := fun _ => "h"

/-- Digest stand-in for witnesses: an injective rendering. -/
def demoH2 : List Nat → String := fun l => toString l

/-- Filesystem where no path resolves. -/
def demoFS0 : FS := ⟨fun _ => none, fun _ => none⟩

/-- Filesystem where every path resolves and every file reads as one
byte. -/
def demoFS1 : FS := ⟨fun p => some ("/" ++ p), fun _ => some [7]⟩

/-- Filesystem where exactly the path `p` resolves, to a one-byte
file. -/
def demoFSp : FS :=
  ⟨fun q => if q = "p" then some "/p" else none,
   fun q => if q = "/p" then some [1] else none⟩

/-- World whose process exits 0 over the empty filesystem. -/
def demoW0 : World := ⟨demoFS0, demoFS0, Except.ok (some 0)⟩

/-- World whose process exits 3. -/
def demoW3 : World := ⟨demoFS0, demoFS0, Except.ok (some 3)⟩

/-- World whose process dies without an exit code. -/
def demoWsig : World := ⟨demoFS0, demoFS0, Except.ok none⟩

theorem leChars_total (a b : List Char) : leChars a b = true ∨ leChars b a = true := by
  induction a generalizing b with
  | nil => left; rfl
  | cons x xs ih =>
    cases b with
    | nil => right; rfl
    | cons y ys =>
      by_cases hxy : x.toNat < y.toNat
      · left; simp [leChars, hxy]
      · by_cases hyx : y.toNat < x.toNat
        · right; simp [leChars, hyx]
        · rcases ih ys with h | h
          · left; simp [leChars, hxy, hyx, h]
          · right; simp [leChars, hxy, hyx, h]

theorem leChars_trans {a b c : List Char} (h1 : leChars a b = true)
    (h2 : leChars b c = true) : leChars a c = true := by
  induction a generalizing b c with
  | nil => rfl
  | cons x xs ih =>
    cases b with
    | nil => simp [leChars] at h1
    | cons y ys =>
      cases c with
      | nil => simp [leChars] at h2
      | cons z zs =>
        simp only [leChars] at h1 h2 ⊢
        by_cases hxy : x.toNat < y.toNat
        · by_cases hyz : y.toNat < z.toNat
          · have hxz : x.toNat < z.toNat := Nat.lt_trans hxy hyz
            simp [hxz]
          · by_cases hzy : z.toNat < y.toNat
            · simp [hyz, hzy] at h2
            · have hxz : x.toNat < z.toNat := by omega
              simp [hxz]
        · by_cases hyx : y.toNat < x.toNat
          · simp [hxy, hyx] at h1
          · by_cases hyz : y.toNat < z.toNat
            · have hxz : x.toNat < z.toNat := by omega
              simp [hxz]
            · by_cases hzy : z.toNat < y.toNat
              · simp [hyz, hzy] at h2
              · have hxz : ¬ x.toNat < z.toNat := by omega
                have hzx : ¬ z.toNat < x.toNat := by omega
                simp only [if_neg hxy, if_neg hyx] at h1
                simp only [if_neg hyz, if_neg hzy] at h2
                simp only [if_neg hxz, if_neg hzx]
                exact ih h1 h2

theorem leChars_antisymm {a b : List Char} (h1 : leChars a b = true)
    (h2 : leChars b a = true) : a = b := by
  induction a generalizing b with
  | nil =>
    cases b with
    | nil => rfl
    | cons y ys => simp [leChars] at h2
  | cons x xs ih =>
    cases b with
    | nil => simp [leChars] at h1
    | cons y ys =>
      simp only [leChars] at h1 h2
      by_cases hxy : x.toNat < y.toNat
      · have hyx : ¬ y.toNat < x.toNat := by omega
        simp [hxy, hyx] at h2
      · by_cases hyx : y.toNat < x.toNat
        · simp [hxy, hyx] at h1
        · have hn : x.toNat = y.toNat := by omega
          have hx : x = y :=
            Char.eq_of_val_eq (UInt32.eq_of_toBitVec_eq (BitVec.eq_of_toNat_eq hn))
          simp only [if_neg hxy, if_neg hyx] at h1 h2
          subst hx
          rw [ih h1 h2]

instance : IsTotal String leStr := ⟨fun a b => leChars_total a.data b.data⟩

instance : IsTrans String leStr := ⟨fun _ _ _ h1 h2 => leChars_trans h1 h2⟩

instance : IsAntisymm String leStr :=
  ⟨fun _ _ h1 h2 => String.ext (leChars_antisymm h1 h2)⟩

theorem length_filterMap_lt {α β : Type} (f : α → Option β) {l : List α} {p : α}
    (hmem : p ∈ l) (hnone : f p = none) :
    (l.filterMap f).length < l.length := by
  induction l with
  | nil => cases hmem
  | cons a l ih =>
    rcases List.mem_cons.mp hmem with h | h
    · subst h
      have hle := List.length_filterMap_le f l
      simp [List.filterMap_cons, hnone]
      omega
    · cases hfa : f a with
      | none =>
        have hlt := ih h
        simp [List.filterMap_cons, hfa]
        omega
      | some b =>
        have hlt := ih h
        simp [List.filterMap_cons, hfa]
        omega

/-- When the staleness decision resolves to execute (no stored sha, or a
stored sha differing from the fresh fingerprint) and every required file
resolves, `reify` is exactly the execution outcome with a spawn
attempted. -/
theorem reify_runs_exec (H : List Nat → String) (w : World) (e : Entry)
    (hreq : e.required_files.length =
      (e.required_files.filterMap w.fs0.canonicalize).length)
    (hstale : e.sha = none ∨ ∃ s s₁, e.sha = some s ∧
      calc_sha H w.fs0 e = Except.ok s₁ ∧ s₁ ≠ s) :
    reify H w e = (execOutcome H w e, true) := by
  rcases hstale with h | ⟨s, s₁, hs, hc, hne⟩
  · simp [reify, check_then, hreq, h]
  · simp [reify, check_then, hreq, hs, hc, hne]

/-- C1: reify implements the three-way staleness decision on an entry
whose required files all resolve: an absent stored sha executes the
command, a stored sha equal to the fresh fingerprint yields `Noop`
without attempting a spawn, a differing one executes; `dry_run`
evaluates the same three-way decision on the same entry. -/
theorem reify_three_way_decision (H : List Nat → String) (w : World) (e : Entry)
    (hreq : e.required_files.length =
      (e.required_files.filterMap w.fs0.canonicalize).length) :
    (e.sha = none → (reify H w e).2 = true ∧
      dry_run H w.fs0 e = (Except.ok (Except.error ReifyFail.DryFail), false)) ∧
    (∀ s, e.sha = some s → calc_sha H w.fs0 e = Except.ok s →
      reify H w e = (Except.ok (Except.ok ReifySuccess.Noop), false) ∧
      dry_run H w.fs0 e = (Except.ok (Except.ok ReifySuccess.Noop), false)) ∧
    (∀ s s₁, e.sha = some s → calc_sha H w.fs0 e = Except.ok s₁ → s₁ ≠ s →
      (reify H w e).2 = true ∧
      dry_run H w.fs0 e = (Except.ok (Except.error ReifyFail.DryFail), false)) := by
  refine ⟨fun h => ⟨?_, ?_⟩, fun s hs hc => ⟨?_, ?_⟩, fun s s₁ hs hc hne => ⟨?_, ?_⟩⟩
  · rw [reify_runs_exec H w e hreq (Or.inl h)]
  · simp [dry_run, check_then, h]
  · simp [reify, check_then, hreq, hs, hc]
  · simp [dry_run, check_then, hs, hc]
  · rw [reify_runs_exec H w e hreq (Or.inr ⟨s, s₁, hs, hc, hne⟩)]
  · simp [dry_run, check_then, hs, hc, hne]

/-- Witness for `reify_three_way_decision`: an entry with no stored sha
executes, one whose stored sha matches the fresh fingerprint is a
`Noop` on both entry points, one with a differing sha executes and
dry-fails. -/
theorem reify_three_way_decision_witness :
    (reify demoH demoW0 ⟨"", "c", [], [], none⟩).2 = true ∧
    reify demoH demoW0 ⟨"", "c", [], [], some "h"⟩ =
      (Except.ok (Except.ok ReifySuccess.Noop), false) ∧
    dry_run demoH demoFS0 ⟨"", "c", [], [], some "h"⟩ =
      (Except.ok (Except.ok ReifySuccess.Noop), false) ∧
    (reify demoH demoW0 ⟨"", "c", [], [], some "zz"⟩).2 = true ∧
    dry_run demoH demoFS0 ⟨"", "c", [], [], some "zz"⟩ =
      (Except.ok (Except.error ReifyFail.DryFail), false) :=
  ⟨((reify_three_way_decision demoH demoW0 _ rfl).1 rfl).1,
   ((reify_three_way_decision demoH demoW0 _ rfl).2.1 "h" rfl (by decide)).1,
   ((reify_three_way_decision demoH demoW0 _ rfl).2.1 "h" rfl (by decide)).2,
   ((reify_three_way_decision demoH demoW0 _ rfl).2.2 "zz" "h" rfl (by decide)
      (by decide)).1,
   ((reify_three_way_decision demoH demoW0 _ rfl).2.2 "zz" "h" rfl (by decide)
      (by decide)).2⟩

/-- C2: permuting the declared order of `files` and/or `required_files`
produces an identical fingerprint, because the canonical paths are
sorted before hashing. -/
theorem calc_sha_order_independent (H : List Nat → String) (fs : FS)
    (e₁ e₂ : Entry) (hcmd : e₁.cmd = e₂.cmd)
    (hf : e₁.files.Perm e₂.files)
    (hr : e₁.required_files.Perm e₂.required_files) :
    calc_sha H fs e₁ = calc_sha H fs e₂ := by
  have hperm : (sortedFiles fs e₁).Perm (sortedFiles fs e₂) :=
    (List.perm_insertionSort leStr _).trans
      (((hf.append hr).filterMap fs.canonicalize).trans
        (List.perm_insertionSort leStr _).symm)
  have hsorted : sortedFiles fs e₁ = sortedFiles fs e₂ :=
    List.eq_of_perm_of_sorted hperm
      (List.sorted_insertionSort leStr _)
      (List.sorted_insertionSort leStr _)
  unfold calc_sha shaStream
  rw [hsorted, hcmd]

/-- Witness for `calc_sha_order_independent` on an entry with both path
lists reversed, over a filesystem where every path resolves. -/
theorem calc_sha_order_independent_witness :
    (["y", "x"] : List String).Perm ["x", "y"] ∧
    (["b", "a"] : List String).Perm ["a", "b"] ∧
    calc_sha demoH2 demoFS1 ⟨"n", "c", ["b", "a"], ["y", "x"], none⟩ =
      calc_sha demoH2 demoFS1 ⟨"n", "c", ["a", "b"], ["x", "y"], none⟩ :=
  ⟨by decide, by decide,
   calc_sha_order_independent demoH2 demoFS1 _ _ rfl (by decide) (by decide)⟩

/-- C3: a required path that fails to resolve makes `reify` return the
`MissingRequiredFiles` outcome with no spawn attempted, whatever the
stored sha is — the precondition check precedes the staleness
decision and no fingerprint is computed or returned. -/
theorem reify_missing_required_short_circuits (H : List Nat → String)
    (w : World) (e : Entry) (p : String)
    (hmem : p ∈ e.required_files) (hnone : w.fs0.canonicalize p = none) :
    reify H w e = (Except.ok (Except.error ReifyFail.MissingRequiredFiles), false) := by
  have hlt := length_filterMap_lt w.fs0.canonicalize hmem hnone
  unfold reify
  rw [if_neg (by omega)]

/-- Witness for `reify_missing_required_short_circuits`: the required
path does not exist, and the stored sha even equals the fresh
fingerprint, yet the outcome is `MissingRequiredFiles`. -/
theorem reify_missing_required_short_circuits_witness :
    ("r" : String) ∈ ["r"] ∧
    reify demoH demoW0 ⟨"", "c", ["r"], [], some "h"⟩ =
      (Except.ok (Except.error ReifyFail.MissingRequiredFiles), false) :=
  ⟨by decide,
   reify_missing_required_short_circuits demoH demoW0 _ "r" (by decide) rfl⟩

/-- C4: when the command is executed, exit code 0 recomputes the
fingerprint against the post-execution filesystem and returns
`ExecSuccess` carrying it; a non-zero exit code returns `ExecFail`
carrying that exact code and no fingerprint; termination without an
exit code is the infrastructural error `Unknown`, not an outcome. -/
theorem exec_outcome_by_exit_code (H : List Nat → String) (w : World) (e : Entry)
    (hreq : e.required_files.length =
      (e.required_files.filterMap w.fs0.canonicalize).length)
    (hstale : e.sha = none ∨ ∃ s s₁, e.sha = some s ∧
      calc_sha H w.fs0 e = Except.ok s₁ ∧ s₁ ≠ s) :
    (∀ sh, w.proc = Except.ok (some 0) → calc_sha H w.fs1 e = Except.ok sh →
      reify H w e = (Except.ok (Except.ok (ReifySuccess.ExecSuccess sh)), true)) ∧
    (∀ code, w.proc = Except.ok (some code) → code ≠ 0 →
      reify H w e = (Except.ok (Except.error (ReifyFail.ExecFail code)), true)) ∧
    (w.proc = Except.ok none → reify H w e = (Except.error Error.Unknown, true)) := by
  have hr := reify_runs_exec H w e hreq hstale
  refine ⟨fun sh hp hc => ?_, fun code hp hc => ?_, fun hp => ?_⟩
  · rw [hr]; simp [execOutcome, exec, hp, hc]
  · rw [hr]; simp [execOutcome, exec, hp, hc]
  · rw [hr]; simp [execOutcome, exec, hp]

/-- Witness for `exec_outcome_by_exit_code`: a first-run entry under
exit code 0, exit code 3, and a signal-killed process. -/
theorem exec_outcome_by_exit_code_witness :
    reify demoH demoW0 ⟨"", "c", [], [], none⟩ =
      (Except.ok (Except.ok (ReifySuccess.ExecSuccess "h")), true) ∧
    reify demoH demoW3 ⟨"", "c", [], [], none⟩ =
      (Except.ok (Except.error (ReifyFail.ExecFail 3)), true) ∧
    reify demoH demoWsig ⟨"", "c", [], [], none⟩ =
      (Except.error Error.Unknown, true) :=
  ⟨(exec_outcome_by_exit_code demoH demoW0 _ rfl (Or.inl rfl)).1 "h" rfl (by decide),
   (exec_outcome_by_exit_code demoH demoW3 _ rfl (Or.inl rfl)).2.1 3 rfl (by decide),
   (exec_outcome_by_exit_code demoH demoWsig _ rfl (Or.inl rfl)).2.2 rfl⟩

/-- C5: paths that fail to canonicalize are silently excluded from the
fingerprint — dropping an unresolvable path from `files` (or from
`required_files`) leaves `calc_sha` unchanged, and when no path at all
resolves the fingerprint is the digest of the command text alone. -/
theorem calc_sha_skips_unresolved (H : List Nat → String) (fs : FS) :
    (∀ (e : Entry) (p : String) (l₁ l₂ : List String),
      fs.canonicalize p = none → e.files = l₁ ++ p :: l₂ →
      calc_sha H fs e = calc_sha H fs { e with files := l₁ ++ l₂ }) ∧
    (∀ (e : Entry) (p : String) (l₁ l₂ : List String),
      fs.canonicalize p = none → e.required_files = l₁ ++ p :: l₂ →
      calc_sha H fs e = calc_sha H fs { e with required_files := l₁ ++ l₂ }) ∧
    (∀ e : Entry, (∀ q ∈ e.files ++ e.required_files, fs.canonicalize q = none) →
      calc_sha H fs e = Except.ok (H (strBytes e.cmd))) := by
  refine ⟨?_, ?_, ?_⟩
  · intro e p l₁ l₂ hp hf
    unfold calc_sha shaStream sortedFiles
    simp [hf, List.filterMap_append, List.filterMap_cons, hp]
  · intro e p l₁ l₂ hp hr
    unfold calc_sha shaStream sortedFiles
    simp [hr, List.filterMap_append, List.filterMap_cons, hp]
  · intro e h
    have h0 : (e.files ++ e.required_files).filterMap fs.canonicalize = [] :=
      List.filterMap_eq_nil_iff.mpr h
    unfold calc_sha shaStream sortedFiles
    rw [h0]
    simp [List.insertionSort, readAll, Except.map]

/-- Witness for `calc_sha_skips_unresolved` over the filesystem where
nothing resolves: dropping the phantom path changes nothing, and the
fingerprint degenerates to the digest of the command text. -/
theorem calc_sha_skips_unresolved_witness :
    demoFS0.canonicalize "q" = none ∧
    calc_sha demoH2 demoFS0 ⟨"n", "c", [], ["q"], none⟩ =
      calc_sha demoH2 demoFS0 ⟨"n", "c", [], [], none⟩ ∧
    calc_sha demoH2 demoFS0 ⟨"n", "c", ["q"], [], none⟩ =
      calc_sha demoH2 demoFS0 ⟨"n", "c", [], [], none⟩ ∧
    calc_sha demoH2 demoFS0 ⟨"n", "c", ["q"], ["q"], none⟩ =
      Except.ok (demoH2 (strBytes "c")) :=
  ⟨rfl,
   (calc_sha_skips_unresolved demoH2 demoFS0).1 _ "q" [] [] rfl rfl,
   (calc_sha_skips_unresolved demoH2 demoFS0).2.1 _ "q" [] [] rfl rfl,
   (calc_sha_skips_unresolved demoH2 demoFS0).2.2 _ (fun _ _ => rfl)⟩

/-- C6: `dry_run` never attempts a spawn and skips the required-files
precondition check entirely: a matching stored sha yields `Noop`, an
absent or differing one yields `DryFail`, with no assumption anywhere
about `required_files` resolving. -/
theorem dry_run_never_spawns (H : List Nat → String) (fs : FS) (e : Entry) :
    (dry_run H fs e).2 = false ∧
    (∀ s, e.sha = some s → calc_sha H fs e = Except.ok s →
      dry_run H fs e = (Except.ok (Except.ok ReifySuccess.Noop), false)) ∧
    (e.sha = none →
      dry_run H fs e = (Except.ok (Except.error ReifyFail.DryFail), false)) ∧
    (∀ s s₁, e.sha = some s → calc_sha H fs e = Except.ok s₁ → s₁ ≠ s →
      dry_run H fs e = (Except.ok (Except.error ReifyFail.DryFail), false)) := by
  refine ⟨?_, fun s hs hc => ?_, fun h => ?_, fun s s₁ hs hc hne => ?_⟩
  · cases hsha : e.sha with
    | none => simp [dry_run, check_then, hsha]
    | some s =>
      cases hc : calc_sha H fs e with
      | error err => simp [dry_run, check_then, hsha, hc]
      | ok ns =>
        by_cases hne : ns ≠ s
        · simp [dry_run, check_then, hsha, hc, hne]
        · simp [dry_run, check_then, hsha, hc, hne]
  · simp [dry_run, check_then, hs, hc]
  · simp [dry_run, check_then, h]
  · simp [dry_run, check_then, hs, hc, hne]

/-- Witness for `dry_run_never_spawns` on entries whose only required
file does not exist: the dry run still evaluates the staleness decision
and never spawns. -/
theorem dry_run_never_spawns_witness :
    (dry_run demoH demoFS0 ⟨"", "c", ["r"], [], some "h"⟩).2 = false ∧
    dry_run demoH demoFS0 ⟨"", "c", ["r"], [], some "h"⟩ =
      (Except.ok (Except.ok ReifySuccess.Noop), false) ∧
    dry_run demoH demoFS0 ⟨"", "c", ["r"], [], none⟩ =
      (Except.ok (Except.error ReifyFail.DryFail), false) ∧
    dry_run demoH demoFS0 ⟨"", "c", ["r"], [], some "zz"⟩ =
      (Except.ok (Except.error ReifyFail.DryFail), false) :=
  ⟨(dry_run_never_spawns demoH demoFS0 _).1,
   (dry_run_never_spawns demoH demoFS0 _).2.1 "h" rfl (by decide),
   (dry_run_never_spawns demoH demoFS0 _).2.2.1 rfl,
   (dry_run_never_spawns demoH demoFS0 _).2.2.2 "zz" "h" rfl (by decide) (by decide)⟩

/-- C10: each occurrence of a resolvable path contributes the file's
content to the digest stream once per occurrence — listing the same
existing path in both `files` and `required_files` feeds its bytes
twice, and for a non-empty file that stream differs from the
single-listing stream. -/
theorem duplicate_path_double_hashed (fs : FS) (nm cmd : String)
    (sh : Option String) (p cp : String) (c : List Nat)
    (hcanon : fs.canonicalize p = some cp) (hread : fs.read cp = some c) :
    shaStream fs ⟨nm, cmd, [p], [p], sh⟩ = Except.ok (c ++ (c ++ strBytes cmd)) ∧
    shaStream fs ⟨nm, cmd, [], [p], sh⟩ = Except.ok (c ++ strBytes cmd) ∧
    (c ≠ [] →
      shaStream fs ⟨nm, cmd, [p], [p], sh⟩ ≠ shaStream fs ⟨nm, cmd, [], [p], sh⟩) := by
  have hle : leStr cp cp := by
    rcases leChars_total cp.data cp.data with h | h <;> exact h
  have h1 : shaStream fs ⟨nm, cmd, [p], [p], sh⟩ =
      Except.ok (c ++ (c ++ strBytes cmd)) := by
    unfold shaStream sortedFiles
    simp [hcanon, List.insertionSort, List.orderedInsert, hle, hread, readAll]
  have h2 : shaStream fs ⟨nm, cmd, [], [p], sh⟩ =
      Except.ok (c ++ strBytes cmd) := by
    unfold shaStream sortedFiles
    simp [hcanon, List.insertionSort, List.orderedInsert, hread, readAll]
  refine ⟨h1, h2, fun hc heq => ?_⟩
  rw [h1, h2] at heq
  have hbytes := Except.ok.inj heq
  have hlen := congrArg List.length hbytes
  rw [List.length_append, List.length_append] at hlen
  exact hc (List.eq_nil_of_length_eq_zero (by omega))

/-- Witness for `duplicate_path_double_hashed` over the filesystem with
the single one-byte file `p`. -/
theorem duplicate_path_double_hashed_witness :
    demoFSp.canonicalize "p" = some "/p" ∧
    demoFSp.read "/p" = some [1] ∧
    shaStream demoFSp ⟨"n", "c", ["p"], ["p"], none⟩ =
      Except.ok ([1] ++ ([1] ++ strBytes "c")) ∧
    shaStream demoFSp ⟨"n", "c", ["p"], ["p"], none⟩ ≠
      shaStream demoFSp ⟨"n", "c", [], ["p"], none⟩ :=
  ⟨by decide, by decide,
   (duplicate_path_double_hashed demoFSp "n" "c" none "p" "/p" [1]
      (by decide) (by decide)).1,
   (duplicate_path_double_hashed demoFSp "n" "c" none "p" "/p" [1]
      (by decide) (by decide)).2.2 (by decide)⟩

theorem stripPre_pre (p s : List Char) : stripPre p (p ++ s) = some s := by
  induction p with
  | nil => rfl
  | cons c p ih => simp [stripPre, ih]

theorem dropPre_pre (p v : String) : dropPre p (p ++ v) = some v := by
  unfold dropPre
  rw [show (p ++ v).data = p.data ++ v.data from rfl, stripPre_pre]
  rfl

theorem dropPre_block_reqHdr : dropPre "    " "  required_files:" = none := rfl

theorem dropPre_block_filesHdr : dropPre "    " "  files:" = none := rfl

theorem dropPre_block_shaLine (s : String) :
    dropPre "    " ("  sha: " ++ s) = none := rfl

theorem dropPre_item_filesHdr : dropPre "  - " "  files:" = none := rfl

theorem dropPre_item_shaLine (s : String) :
    dropPre "  - " ("  sha: " ++ s) = none := rfl

theorem shaLine_ne_reqHdr (s : String) :
    ("  sha: " ++ s) ≠ "  required_files:" := by
  intro h
  have h2 : ("  sha: " ++ s).data.get? 2 = "  required_files:".data.get? 2 := by
    rw [h]
  rw [show ("  sha: " ++ s).data.get? 2 = some 's' from rfl] at h2
  exact absurd h2 (by decide)

theorem shaLine_ne_filesHdr (s : String) :
    ("  sha: " ++ s) ≠ "  files:" := by
  intro h
  have h2 : ("  sha: " ++ s).data.get? 2 = "  files:".data.get? 2 := by rw [h]
  rw [show ("  sha: " ++ s).data.get? 2 = some 's' from rfl] at h2
  exact absurd h2 (by decide)

theorem filesHdr_ne_reqHdr : ("  files:" : String) ≠ "  required_files:" := by
  decide

theorem parseBlock_app (bs : List String) {rest : List String}
    (h : headNoPre "    " rest) :
    parseBlock (bs.map (fun l => "    " ++ l) ++ rest) = (bs, rest) := by
  induction bs with
  | nil =>
    cases rest with
    | nil => rfl
    | cons l r => simp [parseBlock, show dropPre "    " l = none from h]
  | cons b bs ih => simp [parseBlock, dropPre_pre, ih]

theorem parseBlock_map (bs : List String) :
    parseBlock (bs.map (fun l => "    " ++ l)) = (bs, []) := by
  have h := @parseBlock_app bs [] trivial
  rwa [List.append_nil] at h

theorem parseItems_app (xs : List String) {rest : List String}
    (h : headNoPre "  - " rest) :
    parseItems (xs.map (fun f => "  - " ++ f) ++ rest) = (xs, rest) := by
  induction xs with
  | nil =>
    cases rest with
    | nil => rfl
    | cons l r => simp [parseItems, show dropPre "  - " l = none from h]
  | cons x xs ih => simp [parseItems, dropPre_pre, ih]

theorem parseItems_map (xs : List String) :
    parseItems (xs.map (fun f => "  - " ++ f)) = (xs, []) := by
  have h := @parseItems_app xs [] trivial
  rwa [List.append_nil] at h

theorem str_vec_map_string (xs : List String) :
    str_vec (Yaml.array (xs.map Yaml.string)) = xs := by
  induction xs with
  | nil => rfl
  | cons x xs ih => exact congrArg (List.cons x) ih

/-- Reparsing the node a dumped fragment denotes recovers the dumped
fields exactly, with absent optional fields loading back empty or
unset. -/
theorem from_yaml_mkKv (nm cm : String) (rq fl : List String)
    (sho : Option String) :
    from_yaml (Yaml.hash (mkKv nm cm rq fl sho)) =
      Except.ok ⟨nm, cm, rq, fl, sho⟩ := by
  rcases rq with _ | ⟨r1, rs1⟩ <;> rcases fl with _ | ⟨f1, fs1⟩ <;>
    rcases sho with _ | s1
  · rfl
  · rfl
  · calc from_yaml (Yaml.hash (mkKv nm cm [] (f1 :: fs1) none))
        = Except.ok ⟨nm, cm, [],
            str_vec (Yaml.array ((f1 :: fs1).map Yaml.string)), none⟩ := rfl
      _ = Except.ok ⟨nm, cm, [], f1 :: fs1, none⟩ := by rw [str_vec_map_string]
  · calc from_yaml (Yaml.hash (mkKv nm cm [] (f1 :: fs1) (some s1)))
        = Except.ok ⟨nm, cm, [],
            str_vec (Yaml.array ((f1 :: fs1).map Yaml.string)), some s1⟩ := rfl
      _ = Except.ok ⟨nm, cm, [], f1 :: fs1, some s1⟩ := by rw [str_vec_map_string]
  · calc from_yaml (Yaml.hash (mkKv nm cm (r1 :: rs1) [] none))
        = Except.ok ⟨nm, cm,
            str_vec (Yaml.array ((r1 :: rs1).map Yaml.string)), [], none⟩ := rfl
      _ = Except.ok ⟨nm, cm, r1 :: rs1, [], none⟩ := by rw [str_vec_map_string]
  · calc from_yaml (Yaml.hash (mkKv nm cm (r1 :: rs1) [] (some s1)))
        = Except.ok ⟨nm, cm,
            str_vec (Yaml.array ((r1 :: rs1).map Yaml.string)), [], some s1⟩ := rfl
      _ = Except.ok ⟨nm, cm, r1 :: rs1, [], some s1⟩ := by rw [str_vec_map_string]
  · calc from_yaml (Yaml.hash (mkKv nm cm (r1 :: rs1) (f1 :: fs1) none))
        = Except.ok ⟨nm, cm,
            str_vec (Yaml.array ((r1 :: rs1).map Yaml.string)),
            str_vec (Yaml.array ((f1 :: fs1).map Yaml.string)), none⟩ := rfl
      _ = Except.ok ⟨nm, cm, r1 :: rs1, f1 :: fs1, none⟩ := by
          rw [str_vec_map_string, str_vec_map_string]
  · calc from_yaml (Yaml.hash (mkKv nm cm (r1 :: rs1) (f1 :: fs1) (some s1)))
        = Except.ok ⟨nm, cm,
            str_vec (Yaml.array ((r1 :: rs1).map Yaml.string)),
            str_vec (Yaml.array ((f1 :: fs1).map Yaml.string)), some s1⟩ := rfl
      _ = Except.ok ⟨nm, cm, r1 :: rs1, f1 :: fs1, some s1⟩ := by
          rw [str_vec_map_string, str_vec_map_string]

/-- C7 (amended): the fragment `dump` produces reloads through the
document parser and `from_yaml` to an entry equal to the original —
with its sha replaced by the override argument when one is supplied —
provided the name is non-empty (an empty name is omitted and reloading
then fails with `MissingName`), the interpolated field values are
newline-free, and the command text is stable under line splitting
(no trailing newline and no carriage-return line endings, which
`dump`'s line-by-line emission cannot represent). -/
theorem dump_roundTrip (e : Entry) (new_sha : Option String)
    (hname : e.name ≠ "")
    (hcmd : String.intercalate "\n" (rustLines e.cmd) = e.cmd)
    (_hnl1 : noNl e.name)
    (_hnl2 : ∀ f ∈ e.files, noNl f)
    (_hnl3 : ∀ f ∈ e.required_files, noNl f)
    (_hnl4 : ∀ s, new_sha.orElse (fun _ => e.sha) = some s → noNl s) :
    roundTrip e new_sha =
      some (Except.ok { e with sha := new_sha.orElse (fun _ => e.sha) }) := by
  unfold roundTrip
  rcases hrf : e.required_files with _ | ⟨r1, rs1⟩ <;>
    rcases hfl : e.files with _ | ⟨f1, fs1⟩ <;>
    rcases hso : new_sha.orElse (fun _ => e.sha) with _ | s1
  · have hlines : dump e new_sha =
        "-" :: ("  name: " ++ e.name) :: "  cmd: |" ::
          List.map (fun l => "    " ++ l) (rustLines e.cmd) := by
      simp [dump, hname, hrf, hfl, hso]
    have hnode : parseDump (dump e new_sha) =
        some (Yaml.hash (mkKv e.name
          (String.intercalate "\n" (rustLines e.cmd)) [] [] none)) := by
      rw [hlines]
      simp [parseDump, parseField, parseBlock_map, parseSection, mkKv,
        dropPre_pre]
    rw [hnode, Option.map_some', from_yaml_mkKv, hcmd]
  · have hlines : dump e new_sha =
        "-" :: ("  name: " ++ e.name) :: "  cmd: |" ::
          (List.map (fun l => "    " ++ l) (rustLines e.cmd) ++
            ["  sha: " ++ s1]) := by
      simp [dump, hname, hrf, hfl, hso]
    have hnode : parseDump (dump e new_sha) =
        some (Yaml.hash (mkKv e.name
          (String.intercalate "\n" (rustLines e.cmd)) [] [] (some s1))) := by
      rw [hlines]
      simp [parseDump, parseField, parseBlock_app, parseSection, mkKv,
        headNoPre, dropPre_pre, dropPre_block_shaLine, shaLine_ne_reqHdr,
        shaLine_ne_filesHdr]
    rw [hnode, Option.map_some', from_yaml_mkKv, hcmd]
  · have hlines : dump e new_sha =
        "-" :: ("  name: " ++ e.name) :: "  cmd: |" ::
          (List.map (fun l => "    " ++ l) (rustLines e.cmd) ++
            ("  files:" :: ("  - " ++ f1) ::
              List.map (fun f => "  - " ++ f) fs1)) := by
      simp [dump, hname, hrf, hfl, hso]
    have hnode : parseDump (dump e new_sha) =
        some (Yaml.hash (mkKv e.name
          (String.intercalate "\n" (rustLines e.cmd)) [] (f1 :: fs1)
          none)) := by
      rw [hlines]
      simp [parseDump, parseField, parseBlock_app, parseItems, parseItems_map,
        parseSection, mkKv, headNoPre, dropPre_pre, dropPre_block_filesHdr,
        filesHdr_ne_reqHdr]
    rw [hnode, Option.map_some', from_yaml_mkKv, hcmd]
  · have hlines : dump e new_sha =
        "-" :: ("  name: " ++ e.name) :: "  cmd: |" ::
          (List.map (fun l => "    " ++ l) (rustLines e.cmd) ++
            ("  files:" :: ("  - " ++ f1) ::
              (List.map (fun f => "  - " ++ f) fs1 ++ ["  sha: " ++ s1]))) := by
      simp [dump, hname, hrf, hfl, hso]
    have hnode : parseDump (dump e new_sha) =
        some (Yaml.hash (mkKv e.name
          (String.intercalate "\n" (rustLines e.cmd)) [] (f1 :: fs1)
          (some s1))) := by
      rw [hlines]
      simp [parseDump, parseField, parseBlock_app, parseItems, parseItems_app,
        parseSection, mkKv, headNoPre, dropPre_pre, dropPre_block_filesHdr,
        dropPre_item_shaLine, filesHdr_ne_reqHdr, shaLine_ne_reqHdr]
    rw [hnode, Option.map_some', from_yaml_mkKv, hcmd]
  · have hlines : dump e new_sha =
        "-" :: ("  name: " ++ e.name) :: "  cmd: |" ::
          (List.map (fun l => "    " ++ l) (rustLines e.cmd) ++
            ("  required_files:" :: ("  - " ++ r1) ::
              List.map (fun f => "  - " ++ f) rs1)) := by
      simp [dump, hname, hrf, hfl, hso]
    have hnode : parseDump (dump e new_sha) =
        some (Yaml.hash (mkKv e.name
          (String.intercalate "\n" (rustLines e.cmd)) (r1 :: rs1) []
          none)) := by
      rw [hlines]
      simp [parseDump, parseField, parseBlock_app, parseItems, parseItems_map,
        parseSection, mkKv, headNoPre, dropPre_pre, dropPre_block_reqHdr]
    rw [hnode, Option.map_some', from_yaml_mkKv, hcmd]
  · have hlines : dump e new_sha =
        "-" :: ("  name: " ++ e.name) :: "  cmd: |" ::
          (List.map (fun l => "    " ++ l) (rustLines e.cmd) ++
            ("  required_files:" :: ("  - " ++ r1) ::
              (List.map (fun f => "  - " ++ f) rs1 ++ ["  sha: " ++ s1]))) := by
      simp [dump, hname, hrf, hfl, hso]
    have hnode : parseDump (dump e new_sha) =
        some (Yaml.hash (mkKv e.name
          (String.intercalate "\n" (rustLines e.cmd)) (r1 :: rs1) []
          (some s1))) := by
      rw [hlines]
      simp [parseDump, parseField, parseBlock_app, parseItems, parseItems_app,
        parseSection, mkKv, headNoPre, dropPre_pre, dropPre_block_reqHdr,
        dropPre_item_shaLine, shaLine_ne_filesHdr]
    rw [hnode, Option.map_some', from_yaml_mkKv, hcmd]
  · have hlines : dump e new_sha =
        "-" :: ("  name: " ++ e.name) :: "  cmd: |" ::
          (List.map (fun l => "    " ++ l) (rustLines e.cmd) ++
            ("  required_files:" :: ("  - " ++ r1) ::
              (List.map (fun f => "  - " ++ f) rs1 ++
                ("  files:" :: ("  - " ++ f1) ::
                  List.map (fun f => "  - " ++ f) fs1)))) := by
      simp [dump, hname, hrf, hfl, hso]
    have hnode : parseDump (dump e new_sha) =
        some (Yaml.hash (mkKv e.name
          (String.intercalate "\n" (rustLines e.cmd)) (r1 :: rs1) (f1 :: fs1)
          none)) := by
      rw [hlines]
      simp [parseDump, parseField, parseBlock_app, parseItems, parseItems_app,
        parseItems_map, parseSection, mkKv, headNoPre, dropPre_pre,
        dropPre_block_reqHdr, dropPre_item_filesHdr]
    rw [hnode, Option.map_some', from_yaml_mkKv, hcmd]
  · have hlines : dump e new_sha =
        "-" :: ("  name: " ++ e.name) :: "  cmd: |" ::
          (List.map (fun l => "    " ++ l) (rustLines e.cmd) ++
            ("  required_files:" :: ("  - " ++ r1) ::
              (List.map (fun f => "  - " ++ f) rs1 ++
                ("  files:" :: ("  - " ++ f1) ::
                  (List.map (fun f => "  - " ++ f) fs1 ++
                    ["  sha: " ++ s1]))))) := by
      simp [dump, hname, hrf, hfl, hso]
    have hnode : parseDump (dump e new_sha) =
        some (Yaml.hash (mkKv e.name
          (String.intercalate "\n" (rustLines e.cmd)) (r1 :: rs1) (f1 :: fs1)
          (some s1))) := by
      rw [hlines]
      simp [parseDump, parseField, parseBlock_app, parseItems, parseItems_app,
        parseSection, mkKv, headNoPre, dropPre_pre, dropPre_block_reqHdr,
        dropPre_item_filesHdr, dropPre_item_shaLine, shaLine_ne_reqHdr,
        shaLine_ne_filesHdr]
    rw [hnode, Option.map_some', from_yaml_mkKv, hcmd]

/-- Counterexample to C7 as stated: an entry with an empty name dumps a
fragment with no name line, and reloading it fails with `MissingName`
instead of producing an equivalent entry with an empty name. -/
theorem roundTrip_empty_name_cex :
    roundTrip ⟨"", "true", [], [], none⟩ none =
      some (Except.error Error.MissingName) := by decide

/-- Witness for `dump_roundTrip` on a fully populated entry with a
two-line command and a sha override. -/
theorem dump_roundTrip_witness :
    roundTrip ⟨"n", "a\nb", ["r"], ["f"], some "s"⟩ (some "t") =
      some (Except.ok ⟨"n", "a\nb", ["r"], ["f"], some "t"⟩) :=
  dump_roundTrip ⟨"n", "a\nb", ["r"], ["f"], some "s"⟩ (some "t")
    (by decide) (by decide) (by decide) (by decide) (by decide)
    (fun s hs => by
      have h2 : some "t" = some s := hs
      cases h2
      decide)

/-- C8: `from_yaml` fails with `MissingName` when the name field is
absent, with `MissingCmd` when the cmd field is absent, and an absent
sha field is no error: parsing succeeds with the fingerprint unset. -/
theorem from_yaml_required_fields :
    (∀ y : Yaml, (y.idx "name").as_str = none →
      from_yaml y = Except.error Error.MissingName) ∧
    (∀ (y : Yaml) (n : String), (y.idx "name").as_str = some n →
      (y.idx "cmd").as_str = none →
      from_yaml y = Except.error Error.MissingCmd) ∧
    (∀ (y : Yaml) (n c : String), (y.idx "name").as_str = some n →
      (y.idx "cmd").as_str = some c → (y.idx "sha").as_str = none →
      from_yaml y = Except.ok
        { name := n, cmd := c, sha := none,
          files := str_vec (y.idx "files"),
          required_files := str_vec (y.idx "required_files") }) := by
  refine ⟨fun y h => ?_, fun y n hn hc => ?_, fun y n c hn hc hs => ?_⟩
  · simp [from_yaml, h]
  · simp [from_yaml, hn, hc]
  · simp [from_yaml, hn, hc, hs]

/-- Witness for `from_yaml_required_fields` on three concrete nodes. -/
theorem from_yaml_required_fields_witness :
    from_yaml (Yaml.hash []) = Except.error Error.MissingName ∧
    from_yaml (Yaml.hash [("name", Yaml.string "n")]) =
      Except.error Error.MissingCmd ∧
    from_yaml (Yaml.hash [("name", Yaml.string "n"), ("cmd", Yaml.string "c")]) =
      Except.ok ⟨"n", "c", [], [], none⟩ :=
  ⟨from_yaml_required_fields.1 _ rfl,
   from_yaml_required_fields.2.1 _ "n" rfl rfl,
   from_yaml_required_fields.2.2 _ "n" "c" rfl rfl rfl⟩

/-- C9: the scalar-or-list coercion is total and shape-directed: a
single string becomes a one-element sequence, a list keeps exactly its
string elements in declaration order, and any other shape (hash or
missing value) becomes the empty sequence; a concrete mixed list shows
non-string elements being dropped in place. -/
theorem str_vec_shape :
    (∀ s, str_vec (Yaml.string s) = [s]) ∧
    (∀ xs, str_vec (Yaml.array xs) = xs.filterMap Yaml.as_str) ∧
    (∀ kv, str_vec (Yaml.hash kv) = []) ∧
    str_vec Yaml.badValue = [] ∧
    str_vec (Yaml.array [Yaml.string "a", Yaml.badValue, Yaml.hash [],
      Yaml.array [], Yaml.string "b"]) = ["a", "b"] :=
  ⟨fun _ => rfl, fun _ => rfl, fun _ => rfl, rfl, rfl⟩

end Rsha
